import Mathlib

/-!
Verification of the HEIDIC_V3 editor scaffolds (ELECTROSCRIBE / SCRIBE).

This file shallow-embeds the control logic of the repository that the
specification talks about:

* the per-DLL hot-swap retry loop of `hotload_dll`
  (src/ELECTROSCRIBE/main.py lines 2726-2792, identical in
  src/SCRIBE/main.py lines 1824-1890);
* the auto-hotload triggers of `Editor.save` and of the file watcher
  handler `HotReloadHandler.on_modified`;
* the external-tool runner `_run_step`;
* the shader-compile command construction of `compile_shaders_only`;
* the bounded terminal buffer `_add_terminal_line`.

File contents are abstract identifiers (`Nat`); a path that does not
exist is `none`.  Wall-clock times are rationals (seconds).  Sleep
durations are naturals measured in tenths of a second, so the Python
literal `1.0 + attempt * 0.2` becomes `10 + 2 * attempt`.
-/

namespace Heidic

/-- The three filesystem slots the swap loop touches for one DLL:
`loaded` is `dll_path` (`<system>.dll`), `backup` is `dll_old_path`
(`<system>.dll.old`), `staging` is `dll_new_path` (`<system>.dll.new`).
`none` means the path does not exist; `some c` stores the abstract
content at the path. -/
structure FS where
  loaded : Option Nat
  backup : Option Nat
  staging : Option Nat
deriving DecidableEq, Repr

/-- Environment choices for one iteration of the retry loop: whether each
OS call the iteration may issue succeeds.  A `false` models the call
raising `PermissionError`/`OSError` (file locked etc.) and leaving the
filesystem unchanged. -/
structure Env where
  removeOldOk : Bool
  rename1Ok : Bool
  rename2Ok : Bool
  removeCommitOk : Bool
deriving DecidableEq, Repr

/-- How one iteration of `for attempt in range(max_retries)` ends. -/
inductive StepResult where
  /-- The iteration set `replaced = True` and executed `break`. -/
  | committed
  /-- the `except (PermissionError, OSError)` handler around the first
  rename (or the backup removal before it) ran. -/
  | firstFail
  /-- the `except Exception` handler around the second rename ran. -/
  | secondFail
  /-- The staging file `dll_new_path` was missing: log and `break`. -/
  | noStaging
  /-- the second rename succeeded but the post-check
  `not exists(new) and exists(dll)` failed, so the body falls through to
  the next iteration (unreachable under these rename semantics). -/
  | fallthrough
deriving DecidableEq, Repr

/-- The retry budget `max_retries = 15`. -/
def maxRetries : Nat := 15

/-- States written by the micro-operations of the second half of the loop
body (`if os.path.exists(dll_new_path): ...`), in order, paired with the
step result.  Mirrors main.py lines 2756-2782. -/
def secondPhase (s : FS) (e : Env) : List FS × StepResult :=
  if s.staging.isSome then
    if e.rename2Ok then
      let s1 : FS := ⟨s.staging, s.backup, none⟩
      if s1.staging = none ∧ s1.loaded.isSome then
        if s1.backup.isSome then
          if e.removeCommitOk then ([s1, ⟨s1.loaded, none, s1.staging⟩], .committed)
          else ([s1], .committed)
        else ([s1], .committed)
      else ([s1], .fallthrough)
    else ([], .secondFail)
  else ([], .noStaging)

/-- States written by the micro-operations of one full iteration of the
retry loop body, in order, paired with the step result.  Mirrors
main.py lines 2733-2782: remove a stale backup, rename
`dll_path -> dll_old_path`, rename `dll_new_path -> dll_path`, then the
best-effort backup cleanup. -/
def attemptTrace (s : FS) (e : Env) : List FS × StepResult :=
  if s.loaded.isSome then
    if s.backup.isSome then
      if e.removeOldOk then
        let s1 : FS := ⟨s.loaded, none, s.staging⟩
        if e.rename1Ok then
          let s2 : FS := ⟨none, s1.loaded, s1.staging⟩
          let (ts, r) := secondPhase s2 e
          ([s1, s2] ++ ts, r)
        else ([s1], .firstFail)
      else ([], .firstFail)
    else
      if e.rename1Ok then
        let s2 : FS := ⟨none, s.loaded, s.staging⟩
        let (ts, r) := secondPhase s2 e
        (s2 :: ts, r)
      else ([], .firstFail)
  else
    secondPhase s e

/-- The filesystem state an iteration ends in. -/
def attemptStep (s : FS) (e : Env) : FS × StepResult :=
  let (ts, r) := attemptTrace s e
  (((s :: ts).getLast (by simp)), r)

/-- The retry loop from the iteration with index `a` on, one `Env` per
remaining iteration.  Returns the final filesystem state and the value
of the `replaced` flag.  Running out of `Env`s before iteration 15
models stopping the observation there (with `replaced` still false). -/
def swapLoop : FS → List Env → Nat → FS × Bool
  | s, [], _ => (s, false)
  | s, e :: rest, a =>
    if a ≥ maxRetries then (s, false)
    else
      match (attemptStep s e).2 with
      | .committed => ((attemptStep s e).1, true)
      | .noStaging => ((attemptStep s e).1, false)
      | .firstFail =>
        if a < maxRetries - 1 then swapLoop (attemptStep s e).1 rest (a + 1)
        else ((attemptStep s e).1, false)
      | .secondFail =>
        if a < maxRetries - 1 then swapLoop (attemptStep s e).1 rest (a + 1)
        else ((attemptStep s e).1, false)
      | .fallthrough => swapLoop (attemptStep s e).1 rest (a + 1)

/-- The whole per-DLL swap of `hotload_dll`: run the retry loop from
iteration 0. -/
def hotloadSwap (s : FS) (es : List Env) : FS × Bool :=
  swapLoop s es 0

/-- All filesystem states written by the retry loop from iteration `a`
on, in the order they occur (the state on entry is not repeated). -/
def swapTrace : FS → List Env → Nat → List FS
  | _, [], _ => []
  | s, e :: rest, a =>
    if a ≥ maxRetries then []
    else
      match (attemptTrace s e).2 with
      | .committed => (attemptTrace s e).1
      | .noStaging => (attemptTrace s e).1
      | .firstFail =>
        if a < maxRetries - 1 then
          (attemptTrace s e).1 ++ swapTrace (attemptStep s e).1 rest (a + 1)
        else (attemptTrace s e).1
      | .secondFail =>
        if a < maxRetries - 1 then
          (attemptTrace s e).1 ++ swapTrace (attemptStep s e).1 rest (a + 1)
        else (attemptTrace s e).1
      | .fallthrough => (attemptTrace s e).1 ++ swapTrace (attemptStep s e).1 rest (a + 1)

/-! Commit invariant (claim C1). -/

lemma attemptStep_committed (s : FS) (e : Env)
    (h : (attemptStep s e).2 = .committed) :
    (attemptStep s e).1.staging = none ∧ (attemptStep s e).1.loaded.isSome = true := by
  obtain ⟨l, b, st⟩ := s
  obtain ⟨ro, r1, r2, rc⟩ := e
  cases l <;> cases b <;> cases st <;> cases ro <;> cases r1 <;> cases r2 <;> cases rc <;>
    simp_all [attemptStep, attemptTrace, secondPhase]

lemma swapLoop_replaced (es : List Env) : ∀ (s : FS) (a : Nat),
    (swapLoop s es a).2 = true →
    (swapLoop s es a).1.staging = none ∧ (swapLoop s es a).1.loaded.isSome = true := by
  induction es with
  | nil => intro s a h; simp [swapLoop] at h
  | cons e rest ih =>
    intro s a h
    rw [swapLoop] at h ⊢
    by_cases hge : a ≥ maxRetries
    · simp [hge] at h
    · simp only [if_neg hge] at h ⊢
      cases hr : (attemptStep s e).2 <;> simp only [hr] at h ⊢
      · exact attemptStep_committed s e hr
      · by_cases hlt : a < maxRetries - 1
        · rw [if_pos hlt] at h ⊢; exact ih _ _ h
        · rw [if_neg hlt] at h; simp at h
      · by_cases hlt : a < maxRetries - 1
        · rw [if_pos hlt] at h ⊢; exact ih _ _ h
        · rw [if_neg hlt] at h; simp at h
      · exact absurd h (by simp)
      · exact ih _ _ h

/-- C1: if the per-DLL retry loop of `hotload_dll` ends with the swap
marked `replaced`, then in the final filesystem state the staging path
(`*.dll.new`) no longer exists and the loaded path (`*.dll`) exists. -/
theorem hotload_commit_invariant (s : FS) (es : List Env)
    (h : (hotloadSwap s es).2 = true) :
    (hotloadSwap s es).1.staging = none ∧ (hotloadSwap s es).1.loaded.isSome = true :=
  swapLoop_replaced es s 0 h

/-- Witness for C1: a concrete run where both renames succeed on the
first attempt commits, and the invariant holds there. -/
theorem hotload_commit_invariant_witness :
    (hotloadSwap ⟨some 1, none, some 2⟩ [⟨true, true, true, true⟩]).1.staging = none ∧
    (hotloadSwap ⟨some 1, none, some 2⟩ [⟨true, true, true, true⟩]).1.loaded.isSome = true :=
  hotload_commit_invariant ⟨some 1, none, some 2⟩ [⟨true, true, true, true⟩] (by decide)

/-! Abandon without ever retiring the loaded module (claim C2). -/

lemma attemptStep_rename1_fail (s : FS) (e : Env) (c : Nat)
    (hl : s.loaded = some c) (hr : e.rename1Ok = false) :
    (attemptStep s e).2 = .firstFail ∧ (attemptStep s e).1.loaded = some c ∧
    ∀ t ∈ (attemptTrace s e).1, t.loaded = some c := by
  obtain ⟨l, b, st⟩ := s
  obtain ⟨ro, r1, r2, rc⟩ := e
  cases b <;> cases st <;> cases ro <;> cases r2 <;> cases rc <;>
    simp_all [attemptStep, attemptTrace, secondPhase]

lemma swapLoop_rename1_fail (c : Nat) (es : List Env) : ∀ (s : FS) (a : Nat),
    s.loaded = some c → (∀ e ∈ es, e.rename1Ok = false) →
    (swapLoop s es a).1.loaded = some c ∧ (swapLoop s es a).2 = false ∧
    ∀ t ∈ swapTrace s es a, t.loaded = some c := by
  induction es with
  | nil => intro s a hl _; simp [swapLoop, swapTrace, hl]
  | cons e rest ih =>
    intro s a hl hfail
    obtain ⟨h1, h2, h3⟩ :=
      attemptStep_rename1_fail s e c hl (hfail e (List.mem_cons_self e rest))
    have hfail' : ∀ e' ∈ rest, e'.rename1Ok = false :=
      fun e' he' => hfail e' (List.mem_cons_of_mem e he')
    have h1' : (attemptTrace s e).2 = .firstFail := h1
    rw [swapLoop, swapTrace]
    by_cases hge : a ≥ maxRetries
    · simp [hge, hl]
    · simp only [if_neg hge, h1, h1']
      by_cases hlt : a < maxRetries - 1
      · simp only [if_pos hlt]
        obtain ⟨g1, g2, g3⟩ := ih (attemptStep s e).1 (a + 1) h2 hfail'
        refine ⟨g1, g2, ?_⟩
        intro t ht
        rcases List.mem_append.mp ht with ht2 | ht2
        · exact h3 t ht2
        · exact g3 t ht2
      · simp only [if_neg hlt]
        exact ⟨h2, by trivial, h3⟩

/-- C2: if the loaded module file exists and the first rename
(`dll_path -> dll_old_path`) fails on every attempt, the swap loop never
touches the loaded path: every state reached by the loop still has the
original content at the loaded path, the final state does too, and the
swap ends unreplaced after the full 15-attempt budget. -/
theorem hotload_abandon_loaded_untouched (c : Nat) (s : FS) (es : List Env)
    (hl : s.loaded = some c) (_hlen : es.length = 15)
    (hfail : ∀ e ∈ es, e.rename1Ok = false) :
    (hotloadSwap s es).1.loaded = some c ∧ (hotloadSwap s es).2 = false ∧
    ∀ t ∈ swapTrace s es 0, t.loaded = some c :=
  swapLoop_rename1_fail c es s 0 hl hfail

/-- Witness for C2: a locked loaded module with a full budget of failing
first renames is left with its original content. -/
theorem hotload_abandon_loaded_untouched_witness :
    (hotloadSwap ⟨some 5, none, some 2⟩
        (List.replicate 15 ⟨true, false, true, true⟩)).1.loaded = some 5 ∧
    (hotloadSwap ⟨some 5, none, some 2⟩
        (List.replicate 15 ⟨true, false, true, true⟩)).2 = false := by
  obtain ⟨g1, g2, _⟩ :=
    hotload_abandon_loaded_untouched 5 ⟨some 5, none, some 2⟩
      (List.replicate 15 ⟨true, false, true, true⟩) rfl (by decide) (by decide)
  exact ⟨g1, g2⟩

/-! Recoverability when the second rename keeps failing (claim C3). -/

lemma attemptStep_second_fail (s : FS) (e : Env)
    (hl : s.loaded = none) (hst : s.staging.isSome = true)
    (hr : e.rename2Ok = false) :
    attemptStep s e = (s, .secondFail) := by
  obtain ⟨l, b, st⟩ := s
  obtain ⟨ro, r1, r2, rc⟩ := e
  cases b <;> cases st <;> cases ro <;> cases r1 <;> cases rc <;>
    simp_all [attemptStep, attemptTrace, secondPhase]

lemma swapLoop_second_fail (s : FS)
    (hl : s.loaded = none) (hst : s.staging.isSome = true) :
    ∀ (es : List Env) (a : Nat), (∀ e ∈ es, e.rename2Ok = false) →
    swapLoop s es a = (s, false) := by
  intro es
  induction es with
  | nil => intro a _; rw [swapLoop]
  | cons e rest ih =>
    intro a hfail
    have h1 : attemptStep s e = (s, .secondFail) :=
      attemptStep_second_fail s e hl hst (hfail e (List.mem_cons_self e rest))
    rw [swapLoop]
    by_cases hge : a ≥ maxRetries
    · rw [if_pos hge]
    · rw [if_neg hge, h1]
      by_cases hlt : a < maxRetries - 1
      · simp only [if_pos hlt]
        exact ih (a + 1) (fun e' he' => hfail e' (List.mem_cons_of_mem e he'))
      · simp only [if_neg hlt]

lemma attemptStep_retire_then_fail (s : FS) (e : Env) (c d : Nat)
    (hl : s.loaded = some c) (hst : s.staging = some d)
    (h1 : e.removeOldOk = true) (h2 : e.rename1Ok = true) (h3 : e.rename2Ok = false) :
    attemptStep s e = (⟨none, some c, some d⟩, .secondFail) := by
  obtain ⟨l, b, st⟩ := s
  obtain ⟨ro, r1, r2, rc⟩ := e
  cases b <;> cases rc <;> simp_all [attemptStep, attemptTrace, secondPhase]

lemma attemptStep_rename1_fail_state (s : FS) (e : Env)
    (hl : s.loaded.isSome = true) (hr : e.rename1Ok = false) :
    (attemptStep s e).2 = .firstFail ∧ (attemptStep s e).1.loaded = s.loaded ∧
    (attemptStep s e).1.staging = s.staging := by
  obtain ⟨l, b, st⟩ := s
  obtain ⟨ro, r1, r2, rc⟩ := e
  cases b <;> cases st <;> cases ro <;> cases r2 <;> cases rc <;>
    simp_all [attemptStep, attemptTrace, secondPhase]

lemma swapLoop_abandon_aux (c d : Nat) (ek : Env) (es2 : List Env)
    (hk1 : ek.removeOldOk = true) (hk2 : ek.rename1Ok = true) (hk3 : ek.rename2Ok = false)
    (h2 : ∀ e ∈ es2, e.rename2Ok = false) :
    ∀ (es1 : List Env) (a : Nat) (b : Option Nat), (∀ e ∈ es1, e.rename1Ok = false) →
    a + es1.length ≤ maxRetries - 1 →
    swapLoop ⟨some c, b, some d⟩ (es1 ++ ek :: es2) a = (⟨none, some c, some d⟩, false) := by
  intro es1
  induction es1 with
  | nil =>
    intro a b _ hbound
    simp only [List.nil_append, List.length_nil, Nat.add_zero] at hbound ⊢
    have hstep : attemptStep ⟨some c, b, some d⟩ ek = (⟨none, some c, some d⟩, .secondFail) :=
      attemptStep_retire_then_fail _ ek c d rfl rfl hk1 hk2 hk3
    rw [swapLoop]
    have hge : ¬ a ≥ maxRetries := by simp only [maxRetries] at hbound ⊢; omega
    rw [if_neg hge, hstep]
    by_cases hlt : a < maxRetries - 1
    · simp only [if_pos hlt]
      exact swapLoop_second_fail ⟨none, some c, some d⟩ rfl rfl es2 (a + 1) h2
    · simp only [if_neg hlt]
  | cons e rest ih =>
    intro a b hfail hbound
    have hfe : e.rename1Ok = false := hfail e (List.mem_cons_self e rest)
    obtain ⟨g1, g2, g3⟩ :=
      attemptStep_rename1_fail_state ⟨some c, b, some d⟩ e rfl hfe
    have hs' : (attemptStep ⟨some c, b, some d⟩ e).1 =
        ⟨some c, (attemptStep ⟨some c, b, some d⟩ e).1.backup, some d⟩ := by
      have hx : (attemptStep ⟨some c, b, some d⟩ e).1 =
          ⟨(attemptStep ⟨some c, b, some d⟩ e).1.loaded,
           (attemptStep ⟨some c, b, some d⟩ e).1.backup,
           (attemptStep ⟨some c, b, some d⟩ e).1.staging⟩ := rfl
      rw [hx, g2, g3]
    simp only [List.length_cons] at hbound
    rw [List.cons_append, swapLoop]
    have hge : ¬ a ≥ maxRetries := by simp only [maxRetries] at hbound ⊢; omega
    have hlt : a < maxRetries - 1 := by simp only [maxRetries] at hbound ⊢; omega
    rw [if_neg hge, g1]
    simp only [if_pos hlt]
    rw [hs']
    exact ih (a + 1) _ (fun e' he' => hfail e' (List.mem_cons_of_mem e he')) (by omega)

/-- C3: if the first rename succeeds at some attempt `k` (after `k`
attempts on which it failed) and every second rename from then on fails
until the 15-attempt budget is exhausted, the loop exits unreplaced with
the old module still at the backup path, the loaded path absent, and the
staging artifact undisturbed. -/
theorem hotload_abandon_recoverable (c d : Nat) (b : Option Nat)
    (es1 es2 : List Env) (ek : Env)
    (h1 : ∀ e ∈ es1, e.rename1Ok = false)
    (hk1 : ek.removeOldOk = true) (hk2 : ek.rename1Ok = true) (hk3 : ek.rename2Ok = false)
    (h2 : ∀ e ∈ es2, e.rename2Ok = false)
    (hlen : es1.length + 1 + es2.length = 15) :
    hotloadSwap ⟨some c, b, some d⟩ (es1 ++ ek :: es2) = (⟨none, some c, some d⟩, false) :=
  swapLoop_abandon_aux c d ek es2 hk1 hk2 hk3 h2 es1 0 b h1
    (by simp only [maxRetries]; omega)

/-- Witness for C3: the first rename succeeds on attempt 3 and all later
second renames fail; the backup survives, the loaded path is absent and
the staging artifact is intact. -/
theorem hotload_abandon_recoverable_witness :
    hotloadSwap ⟨some 5, none, some 2⟩
      (List.replicate 3 ⟨true, false, true, true⟩ ++ ⟨true, true, false, true⟩ ::
        List.replicate 11 ⟨true, true, false, true⟩) = (⟨none, some 5, some 2⟩, false) :=
  hotload_abandon_recoverable 5 2 none
    (List.replicate 3 ⟨true, false, true, true⟩)
    (List.replicate 11 ⟨true, true, false, true⟩)
    ⟨true, true, false, true⟩ (by decide) rfl rfl rfl (by decide) (by decide)

/-! Backup-before-retire (claim C4). -/

/-- One transition of the swap loop respects backup-before-retire: if the
content at the loaded path is deleted or overwritten by the transition,
the post-state holds that content at the backup path. -/
def backupGuard (s s' : FS) : Prop :=
  ∀ c, s.loaded = some c → s'.loaded ≠ some c → s'.backup = some c

lemma attemptTrace_chain (s : FS) (e : Env) :
    List.Chain backupGuard s (attemptTrace s e).1 := by
  obtain ⟨l, b, st⟩ := s
  obtain ⟨ro, r1, r2, rc⟩ := e
  cases l <;> cases b <;> cases st <;> cases ro <;> cases r1 <;> cases r2 <;> cases rc <;>
    simp_all [attemptTrace, secondPhase, List.chain_cons, backupGuard]

lemma chain_append_last {α : Type} {R : α → α → Prop} :
    ∀ (l1 : List α) (a : α) (l2 : List α), List.Chain R a l1 →
    List.Chain R ((a :: l1).getLast (by simp)) l2 → List.Chain R a (l1 ++ l2) := by
  intro l1
  induction l1 with
  | nil => intro a l2 _ h2; simpa using h2
  | cons x rest ih =>
    intro a l2 h1 h2
    rw [List.cons_append]
    obtain ⟨hax, hrest⟩ := List.chain_cons.mp h1
    refine List.chain_cons.mpr ⟨hax, ih x l2 hrest ?_⟩
    have hlast : (a :: x :: rest).getLast (by simp) = (x :: rest).getLast (by simp) :=
      List.getLast_cons (by simp)
    rwa [hlast] at h2

lemma attemptStep_fst (s : FS) (e : Env) :
    (attemptStep s e).1 = (s :: (attemptTrace s e).1).getLast (by simp) := rfl

lemma swapTrace_chain (es : List Env) : ∀ (s : FS) (a : Nat),
    List.Chain backupGuard s (swapTrace s es a) := by
  induction es with
  | nil => intro s a; rw [swapTrace]; exact List.Chain.nil
  | cons e rest ih =>
    intro s a
    rw [swapTrace]
    by_cases hge : a ≥ maxRetries
    · rw [if_pos hge]; exact List.Chain.nil
    · rw [if_neg hge]
      have hchain := attemptTrace_chain s e
      have hcomb : List.Chain backupGuard s
          ((attemptTrace s e).1 ++ swapTrace (attemptStep s e).1 rest (a + 1)) := by
        refine chain_append_last (attemptTrace s e).1 s _ hchain ?_
        rw [← attemptStep_fst]
        exact ih (attemptStep s e).1 (a + 1)
      cases (attemptTrace s e).2
      · exact hchain
      · by_cases hlt : a < maxRetries - 1
        · simp only [if_pos hlt]; exact hcomb
        · simp only [if_neg hlt]; exact hchain
      · by_cases hlt : a < maxRetries - 1
        · simp only [if_pos hlt]; exact hcomb
        · simp only [if_neg hlt]; exact hchain
      · exact hchain
      · exact hcomb

/-- C4: along every execution of the swap loop, every state transition
satisfies `backupGuard`: the loop never deletes or overwrites the file
at the loaded path without the previous loaded content already sitting
at the backup path in the resulting state. -/
theorem hotload_backup_before_retire (s : FS) (es : List Env) :
    List.Chain backupGuard s (swapTrace s es 0) :=
  swapTrace_chain es s 0

/-! Retry budget and backoff schedule (claim C5). -/

/-- The attempts the retry loop makes, in order: attempt index, how the
iteration ended, and the backoff sleep (in tenths of a second) executed
before the next attempt (`none` when the loop stops).  The sleeps are
the literal `1.0 + (attempt * 0.2)` of the source after a first-rename failure and
the constant `1.0` after a second-rename failure. -/
def swapSchedule : FS → List Env → Nat → List (Nat × StepResult × Option Nat)
  | _, [], _ => []
  | s, e :: rest, a =>
    if a ≥ maxRetries then []
    else
      match (attemptStep s e).2 with
      | .committed => [(a, .committed, none)]
      | .noStaging => [(a, .noStaging, none)]
      | .firstFail =>
        if a < maxRetries - 1 then
          (a, .firstFail, some (10 + 2 * a)) :: swapSchedule (attemptStep s e).1 rest (a + 1)
        else [(a, .firstFail, none)]
      | .secondFail =>
        if a < maxRetries - 1 then
          (a, .secondFail, some 10) :: swapSchedule (attemptStep s e).1 rest (a + 1)
        else [(a, .secondFail, none)]
      | .fallthrough =>
        (a, .fallthrough, none) :: swapSchedule (attemptStep s e).1 rest (a + 1)

/-- C5 counterexample: a run in which the second rename fails on attempts
0, 1 and 2 sleeps 1.0 s between attempts 1 and 2, not the
1.0 + 1 * 0.2 = 1.2 s the claim requires for every failed step. -/
theorem hotload_backoff_counterexample :
    ((swapSchedule ⟨none, none, some 2⟩
        (List.replicate 3 ⟨true, true, false, true⟩) 0).get? 1 =
      some (1, .secondFail, some 10)) ∧ (10 : Nat) ≠ 10 + 2 * 1 := by
  decide

lemma swapSchedule_spec (es : List Env) : ∀ (s : FS) (a : Nat),
    (swapSchedule s es a).length ≤ maxRetries - a ∧
    ∀ rec ∈ swapSchedule s es a, a ≤ rec.1 ∧ rec.1 < maxRetries ∧
      (rec.2.1 = .firstFail → rec.2.2 = some (10 + 2 * rec.1) ∨ rec.2.2 = none) ∧
      (rec.2.1 = .secondFail → rec.2.2 = some 10 ∨ rec.2.2 = none) ∧
      (rec.2.1 = .committed ∨ rec.2.1 = .noStaging ∨ rec.2.1 = .fallthrough →
        rec.2.2 = none) := by
  induction es with
  | nil => intro s a; simp [swapSchedule]
  | cons e rest ih =>
    intro s a
    rw [swapSchedule]
    by_cases hge : a ≥ maxRetries
    · simp [hge]
    · rw [if_neg hge]
      have ha : a < maxRetries := Nat.lt_of_not_le hge
      cases hr : (attemptStep s e).2 <;> simp only [hr]
      · constructor
        · simpa using by omega
        · intro rec hrec
          simp only [List.mem_singleton] at hrec
          subst hrec
          refine ⟨Nat.le_refl a, ha, by simp, by simp, fun _ => rfl⟩
      · by_cases hlt : a < maxRetries - 1
        · rw [if_pos hlt]
          obtain ⟨ihl, ihm⟩ := ih (attemptStep s e).1 (a + 1)
          constructor
          · simp only [List.length_cons]; omega
          · intro rec hrec
            rcases List.mem_cons.mp hrec with hrec | hrec
            · subst hrec
              exact ⟨Nat.le_refl a, ha, fun _ => Or.inl rfl, by simp, by simp⟩
            · obtain ⟨g1, g2, g3, g4, g5⟩ := ihm rec hrec
              exact ⟨by omega, g2, g3, g4, g5⟩
        · rw [if_neg hlt]
          constructor
          · simpa using by omega
          · intro rec hrec
            simp only [List.mem_singleton] at hrec
            subst hrec
            exact ⟨Nat.le_refl a, ha, fun _ => Or.inr rfl, by simp, by simp⟩
      · by_cases hlt : a < maxRetries - 1
        · rw [if_pos hlt]
          obtain ⟨ihl, ihm⟩ := ih (attemptStep s e).1 (a + 1)
          constructor
          · simp only [List.length_cons]; omega
          · intro rec hrec
            rcases List.mem_cons.mp hrec with hrec | hrec
            · subst hrec
              exact ⟨Nat.le_refl a, ha, by simp, fun _ => Or.inl rfl, by simp⟩
            · obtain ⟨g1, g2, g3, g4, g5⟩ := ihm rec hrec
              exact ⟨by omega, g2, g3, g4, g5⟩
        · rw [if_neg hlt]
          constructor
          · simpa using by omega
          · intro rec hrec
            simp only [List.mem_singleton] at hrec
            subst hrec
            exact ⟨Nat.le_refl a, ha, by simp, fun _ => Or.inr rfl, by simp⟩
      · constructor
        · simpa using by omega
        · intro rec hrec
          simp only [List.mem_singleton] at hrec
          subst hrec
          refine ⟨Nat.le_refl a, ha, by simp, by simp, fun _ => rfl⟩
      · obtain ⟨ihl, ihm⟩ := ih (attemptStep s e).1 (a + 1)
        constructor
        · simp only [List.length_cons]; omega
        · intro rec hrec
          rcases List.mem_cons.mp hrec with hrec | hrec
          · subst hrec
            exact ⟨Nat.le_refl a, ha, by simp, by simp, fun _ => rfl⟩
          · obtain ⟨g1, g2, g3, g4, g5⟩ := ihm rec hrec
            exact ⟨by omega, g2, g3, g4, g5⟩

/-- C5 as amended: the swap loop makes at most 15 attempts per DLL; the
backoff before a retry is 1.0 + attempt * 0.2 seconds when the first
rename failed, but a constant 1.0 seconds when the second rename failed
(no backoff follows an attempt that stops the loop). -/
theorem hotload_backoff_schedule (s : FS) (es : List Env) :
    (swapSchedule s es 0).length ≤ maxRetries ∧
    ∀ rec ∈ swapSchedule s es 0, rec.1 < maxRetries ∧
      (rec.2.1 = .firstFail → rec.2.2 = some (10 + 2 * rec.1) ∨ rec.2.2 = none) ∧
      (rec.2.1 = .secondFail → rec.2.2 = some 10 ∨ rec.2.2 = none) ∧
      (rec.2.1 = .committed ∨ rec.2.1 = .noStaging ∨ rec.2.1 = .fallthrough →
        rec.2.2 = none) := by
  obtain ⟨h1, h2⟩ := swapSchedule_spec es s 0
  refine ⟨by simpa using h1, fun rec hrec => ?_⟩
  obtain ⟨_, g2, g3, g4, g5⟩ := h2 rec hrec
  exact ⟨g2, g3, g4, g5⟩

/-- Witness for C5 (amended): a run with first-rename lock failures on
attempts 0 and 1 backs off 1.0 s then 1.2 s, within the 15-attempt
budget. -/
theorem hotload_backoff_schedule_witness :
    (swapSchedule ⟨some 5, none, some 2⟩
        (List.replicate 3 ⟨true, false, true, true⟩) 0).length ≤ maxRetries ∧
    (1 : Nat) < maxRetries ∧
    ((StepResult.firstFail : StepResult) = .firstFail →
      (some (10 + 2 * 1) : Option Nat) = some (10 + 2 * 1) ∨
        (some (10 + 2 * 1) : Option Nat) = none) := by
  obtain ⟨h1, h2⟩ := hotload_backoff_schedule ⟨some 5, none, some 2⟩
    (List.replicate 3 ⟨true, false, true, true⟩)
  obtain ⟨g1, g2, _, _⟩ := h2 (1, .firstFail, some (10 + 2 * 1)) (by decide)
  exact ⟨h1, g1, g2⟩

/-! Auto-hotload triggers: `Editor.save` and
`HotReloadHandler.on_modified` (claims C6 and C7). -/

/-- The editor attributes the two trigger sites read and write.
`lastHotloadTime` is `self.last_hotload_time`; times are in seconds. -/
structure EditorState where
  originalHdPath : String
  viewMode : String
  autoHotloadEnabled : Bool
  hasHotSystems : Bool
  building : Bool
  justBuilt : Bool
  lastHotloadTime : ℚ

/-- The own debounce timestamp `self.last_modified` of the watcher handler. -/
structure HandlerState where
  lastModified : ℚ

/-- The Python suffix test `str.endswith`, on the character lists of the strings. -/
def endswith (s suffix : String) : Bool :=
  suffix.data.isSuffixOf s.data

/-- A watchdog filesystem event as `on_modified` sees it. -/
structure WatcherEvent where
  isDirectory : Bool
  srcPath : String

/-- The auto-hotload tail of `Editor.save` (main.py lines 443-455):
whether a hotload thread is spawned by this save, and the editor state
afterwards. -/
def saveAutoHotload (ed : EditorState) (currentTime : ℚ) : Bool × EditorState :=
  if ed.viewMode == "hd" && ed.autoHotloadEnabled && ed.hasHotSystems
      && !ed.building && !ed.justBuilt then
    if currentTime - ed.lastHotloadTime > 2 then
      (true, { ed with lastHotloadTime := currentTime })
    else (false, ed)
  else (false, ed)

/-- The handler `HotReloadHandler.on_modified` (main.py lines 478-500): whether a
hotload thread is spawned for this event, and the editor and handler
states afterwards.  `abspath` stands for `os.path.abspath`. -/
def onModified (abspath : String → String) (ed : EditorState) (hs : HandlerState)
    (ev : WatcherEvent) (currentTime : ℚ) : Bool × EditorState × HandlerState :=
  if ev.isDirectory then (false, ed, hs)
  else if endswith ev.srcPath ".dll" || endswith ev.srcPath ".dll.new" then (false, ed, hs)
  else if endswith ev.srcPath ".hd" && (abspath ev.srcPath == abspath ed.originalHdPath) then
    if ed.building || ed.justBuilt then (false, ed, hs)
    else
      if currentTime - hs.lastModified > 1 then
        if currentTime - ed.lastHotloadTime > 2 then
          if ed.autoHotloadEnabled && ed.hasHotSystems then
            (true, { ed with lastHotloadTime := currentTime }, ⟨currentTime⟩)
          else (false, ed, ⟨currentTime⟩)
        else (false, ed, ⟨currentTime⟩)
      else (false, ed, hs)
  else (false, ed, hs)

/-- C6: while `_building` (or `_just_built`) is set, neither trigger
site fires, whatever save or modification event arrives. -/
theorem suppression_invariant (abspath : String → String) (ed : EditorState)
    (hs : HandlerState) (ev : WatcherEvent) (t u : ℚ)
    (h : ed.building = true ∨ ed.justBuilt = true) :
    (saveAutoHotload ed t).1 = false ∧ (onModified abspath ed hs ev u).1 = false := by
  constructor
  · rcases h with h | h <;> simp [saveAutoHotload, h]
  · rcases h with h | h <;>
      (simp only [onModified]; split_ifs <;> simp_all)

/-- Witness for C6: with the building flag set, a save and a matching
file event both fail to trigger. -/
theorem suppression_invariant_witness :
    (saveAutoHotload ⟨"a.hd", "hd", true, true, true, false, 0⟩ 5).1 = false ∧
    (onModified id ⟨"a.hd", "hd", true, true, true, false, 0⟩ ⟨0⟩ ⟨false, "a.hd"⟩ 5).1
      = false :=
  suppression_invariant id ⟨"a.hd", "hd", true, true, true, false, 0⟩ ⟨0⟩
    ⟨false, "a.hd"⟩ 5 5 (Or.inl rfl)

/-- Feed a sequence of timestamped events through `on_modified`,
counting how many of them spawn a hotload. -/
def processEvents (abspath : String → String) :
    EditorState → HandlerState → List (WatcherEvent × ℚ) → Nat × EditorState × HandlerState
  | ed, hs, [] => (0, ed, hs)
  | ed, hs, (ev, t) :: rest =>
    ((if (onModified abspath ed hs ev t).1 then 1 else 0) +
        (processEvents abspath (onModified abspath ed hs ev t).2.1
          (onModified abspath ed hs ev t).2.2 rest).1,
      (processEvents abspath (onModified abspath ed hs ev t).2.1
        (onModified abspath ed hs ev t).2.2 rest).2)

lemma onModified_no_fire (abspath : String → String) (ed : EditorState)
    (hs : HandlerState) (ev : WatcherEvent) (t : ℚ)
    (hle : t ≤ ed.lastHotloadTime + 2) :
    (onModified abspath ed hs ev t).1 = false ∧
    (onModified abspath ed hs ev t).2.1 = ed := by
  simp only [onModified]
  split_ifs <;> first | exact ⟨rfl, rfl⟩ | linarith

lemma processEvents_no_fire (abspath : String → String) :
    ∀ (evs : List (WatcherEvent × ℚ)) (ed : EditorState) (hs : HandlerState),
    (∀ p ∈ evs, p.2 ≤ ed.lastHotloadTime + 2) →
    (processEvents abspath ed hs evs).1 = 0 := by
  intro evs
  induction evs with
  | nil => intro ed hs _; rfl
  | cons p rest ih =>
    obtain ⟨ev, t⟩ := p
    intro ed hs hb
    obtain ⟨f0, e0⟩ := onModified_no_fire abspath ed hs ev t
      (hb (ev, t) (List.mem_cons_self _ _))
    rw [processEvents]
    simp only [f0, e0, if_false, Bool.false_eq_true, ite_false, Nat.zero_add]
    exact ih ed (onModified abspath ed hs ev t).2.2
      (fun p hp => hb p (List.mem_cons_of_mem _ hp))

lemma onModified_fires (abspath : String → String) (ed : EditorState)
    (hs : HandlerState) (ev : WatcherEvent) (t : ℚ)
    (hdir : ev.isDirectory = false)
    (hdll : (endswith ev.srcPath ".dll" || endswith ev.srcPath ".dll.new") = false)
    (hhd : (endswith ev.srcPath ".hd" &&
      (abspath ev.srcPath == abspath ed.originalHdPath)) = true)
    (hbuild : ed.building = false) (hjust : ed.justBuilt = false)
    (hlm : t - hs.lastModified > 1) (hlh : t - ed.lastHotloadTime > 2)
    (hauto : ed.autoHotloadEnabled = true) (hhot : ed.hasHotSystems = true) :
    onModified abspath ed hs ev t =
      (true, { ed with lastHotloadTime := t }, ⟨t⟩) := by
  simp [onModified, hdir, hdll, hhd, hbuild, hjust, hlm, hlh, hauto, hhot]

/-- C7: a matching modification event that passes the debounce checks
fires one hotload; every further event arriving within 2.0 seconds of
the recorded `last_hotload_time` is ignored, so the whole burst fires
exactly once. -/
theorem debounce_exactly_once (abspath : String → String) (ed : EditorState)
    (hs : HandlerState) (ev0 : WatcherEvent) (t0 : ℚ)
    (rest : List (WatcherEvent × ℚ))
    (hdir : ev0.isDirectory = false)
    (hdll : (endswith ev0.srcPath ".dll" || endswith ev0.srcPath ".dll.new") = false)
    (hhd : (endswith ev0.srcPath ".hd" &&
      (abspath ev0.srcPath == abspath ed.originalHdPath)) = true)
    (hbuild : ed.building = false) (hjust : ed.justBuilt = false)
    (hlm : t0 - hs.lastModified > 1) (hlh : t0 - ed.lastHotloadTime > 2)
    (hauto : ed.autoHotloadEnabled = true) (hhot : ed.hasHotSystems = true)
    (hrest : ∀ p ∈ rest, p.2 ≤ t0 + 2) :
    (processEvents abspath ed hs ((ev0, t0) :: rest)).1 = 1 := by
  have hfire := onModified_fires abspath ed hs ev0 t0
    hdir hdll hhd hbuild hjust hlm hlh hauto hhot
  rw [processEvents]
  simp only [hfire, if_true]
  have hz := processEvents_no_fire abspath rest
    { ed with lastHotloadTime := t0 } ⟨t0⟩ (fun p hp => hrest p hp)
  simp only [hz]

/-- Witness for C7: an accepted event at t = 3 followed by another
matching event at t = 4 produces exactly one hotload. -/
theorem debounce_exactly_once_witness :
    (processEvents id ⟨"a.hd", "hd", true, true, false, false, 0⟩ ⟨0⟩
      [(⟨false, "a.hd"⟩, 3), (⟨false, "a.hd"⟩, 4)]).1 = 1 :=
  debounce_exactly_once id ⟨"a.hd", "hd", true, true, false, false, 0⟩ ⟨0⟩
    ⟨false, "a.hd"⟩ 3 [(⟨false, "a.hd"⟩, 4)] rfl (by decide) (by decide)
    rfl rfl (by norm_num) (by norm_num) rfl rfl
    (by intro p hp; simp only [List.mem_singleton] at hp; subst hp; norm_num)

/-! External-tool runner `_run_step` (claim C8). -/

/-- The Python line splitter `str.splitlines` for newline-terminated text: pieces between
newline characters, without a trailing empty piece. -/
def splitlines (s : String) : List String :=
  if s = "" then []
  else
    let parts := s.splitOn "\n"
    if parts.getLast? = some "" then parts.dropLast else parts

/-- The editor attributes `_run_step` writes. -/
structure StepState where
  status : String
  logLines : List String

/-- What became of the spawned process: a completed run with its exit
code and captured output, or `FileNotFoundError` from `subprocess.run`. -/
inductive ProcResult where
  | completed (returncode : Int) (stdout stderr : String)
  | fileNotFound

/-- The runner `_run_step(label, cmd, capture_output)` (main.py lines 2799-2829):
the returned boolean and the editor state afterwards. -/
def runStep (st : StepState) (label : String) (cmd : List String)
    (res : ProcResult) (captureOutput : Bool) : Bool × StepState :=
  match res with
  | .completed rc out err =>
    if rc ≠ 0 then
      (false, ⟨label ++ " failed: " ++ toString rc,
        st.logLines ++ (if out ++ err ≠ "" then splitlines (out ++ err) else [])⟩)
    else if captureOutput then
      (true, ⟨label ++ " ok",
        (st.logLines ++ (if out ≠ "" then splitlines out else []))
          ++ (if err ≠ "" then splitlines err else [])⟩)
    else
      (true, ⟨label ++ " launched",
        st.logLines ++ [label ++ ": launched " ++ String.intercalate " " cmd]⟩)
  | .fileNotFound =>
    (false, ⟨label ++ " failed: cmd not found",
      st.logLines ++ [label ++ ": command not found"]⟩)

/-- C8: `_run_step` returns true exactly when the process exited with
code 0; a nonzero exit or a missing executable returns false (no
exception escapes), leaves a one-line status naming the label, and
appends the captured output (split into lines) to the log. -/
theorem run_step_exit_code_semantics (st : StepState) (label : String)
    (cmd : List String) (res : ProcResult) :
    (runStep st label cmd res true).1 =
      (match res with
       | .completed rc _ _ => rc == 0
       | .fileNotFound => false) ∧
    (runStep st label cmd res true).2.status =
      (match res with
       | .completed rc _ _ =>
         if rc = 0 then label ++ " ok" else label ++ " failed: " ++ toString rc
       | .fileNotFound => label ++ " failed: cmd not found") ∧
    (runStep st label cmd res true).2.logLines =
      st.logLines ++
      (match res with
       | .completed rc out err =>
         if rc = 0 then
           (if out ≠ "" then splitlines out else []) ++
             (if err ≠ "" then splitlines err else [])
         else (if out ++ err ≠ "" then splitlines (out ++ err) else [])
       | .fileNotFound => [label ++ ": command not found"]) := by
  cases res with
  | completed rc out err =>
    by_cases hrc : rc = 0
    · simp [runStep, hrc]
    · simp [runStep, hrc]
  | fileNotFound => simp [runStep]

/-! Shader invocation shape (claim C9). -/

/-- The `.spv` output path `compile_shaders_only` derives (main.py lines
997-1008): `.glsl` inputs have the extension replaced, every other
input has `.spv` appended. -/
def spvPath (shaderPath : String) : String :=
  if endswith shaderPath ".glsl" then
    ⟨shaderPath.data.take (shaderPath.data.length - 5)⟩ ++ ".spv"
  else if endswith shaderPath ".vert" then shaderPath ++ ".spv"
  else if endswith shaderPath ".frag" then shaderPath ++ ".spv"
  else if endswith shaderPath ".comp" then shaderPath ++ ".spv"
  else shaderPath ++ ".spv"

/-- The `-fshader-stage=` flag `compile_shaders_only` derives (main.py
lines 1011-1019); extensions outside the four listed ones get none. -/
def stageFlag (shaderPath : String) : Option String :=
  if endswith shaderPath ".comp" then some "-fshader-stage=compute"
  else if endswith shaderPath ".vert" then some "-fshader-stage=vertex"
  else if endswith shaderPath ".frag" then some "-fshader-stage=fragment"
  else if endswith shaderPath ".geom" then some "-fshader-stage=geometry"
  else none

/-- The glslc command line assembled per shader (main.py lines
1022-1025). -/
def shaderCompileCmd (glslcPath shaderPath : String) : List String :=
  [glslcPath] ++
    (match stageFlag shaderPath with | some f => [f] | none => []) ++
    [shaderPath, "-o", spvPath shaderPath]

/-- C9 counterexample: a `.glsl` input gets no stage flag and its output
path is not obtained by appending `.spv` to the input filename; a
`.tesc` input gets no stage flag either. -/
theorem shader_invocation_counterexample :
    stageFlag "shader.glsl" = none ∧
    spvPath "shader.glsl" ≠ "shader.glsl" ++ ".spv" ∧
    stageFlag "shader.tesc" = none := by
  decide

/-- C9 as amended: `.vert`, `.frag`, `.comp` and `.geom` inputs are
compiled with a stage flag derived from the extension and an output path
formed by appending `.spv`; `.glsl`, `.tesc` and `.tese` inputs get no
stage flag, and for a `.glsl` input the output path replaces the `.glsl`
extension by `.spv` while `.tesc`/`.tese` still append. -/
theorem shader_invocation_shape (g pv pf pc pg pl pt ps : String)
    (hv1 : endswith pv ".vert" = true) (hv2 : endswith pv ".glsl" = false)
    (hv3 : endswith pv ".comp" = false)
    (hf1 : endswith pf ".frag" = true) (hf2 : endswith pf ".glsl" = false)
    (hf3 : endswith pf ".comp" = false) (hf4 : endswith pf ".vert" = false)
    (hc1 : endswith pc ".comp" = true) (hc2 : endswith pc ".glsl" = false)
    (hg1 : endswith pg ".geom" = true) (hg2 : endswith pg ".glsl" = false)
    (hg3 : endswith pg ".comp" = false) (hg4 : endswith pg ".vert" = false)
    (hg5 : endswith pg ".frag" = false)
    (hl1 : endswith pl ".glsl" = true) (hl2 : endswith pl ".comp" = false)
    (hl3 : endswith pl ".vert" = false) (hl4 : endswith pl ".frag" = false)
    (hl5 : endswith pl ".geom" = false)
    (_ht1 : endswith pt ".tesc" = true) (ht2 : endswith pt ".glsl" = false)
    (ht3 : endswith pt ".comp" = false) (ht4 : endswith pt ".vert" = false)
    (ht5 : endswith pt ".frag" = false) (ht6 : endswith pt ".geom" = false)
    (_hs1 : endswith ps ".tese" = true) (hs2 : endswith ps ".glsl" = false)
    (hs3 : endswith ps ".comp" = false) (hs4 : endswith ps ".vert" = false)
    (hs5 : endswith ps ".frag" = false) (hs6 : endswith ps ".geom" = false) :
    shaderCompileCmd g pv = [g, "-fshader-stage=vertex", pv, "-o", pv ++ ".spv"] ∧
    shaderCompileCmd g pf = [g, "-fshader-stage=fragment", pf, "-o", pf ++ ".spv"] ∧
    shaderCompileCmd g pc = [g, "-fshader-stage=compute", pc, "-o", pc ++ ".spv"] ∧
    shaderCompileCmd g pg = [g, "-fshader-stage=geometry", pg, "-o", pg ++ ".spv"] ∧
    shaderCompileCmd g pl =
      [g, pl, "-o", (⟨pl.data.take (pl.data.length - 5)⟩ : String) ++ ".spv"] ∧
    shaderCompileCmd g pt = [g, pt, "-o", pt ++ ".spv"] ∧
    shaderCompileCmd g ps = [g, ps, "-o", ps ++ ".spv"] := by
  refine ⟨?_, ?_, ?_, ?_, ?_, ?_, ?_⟩ <;>
    simp [shaderCompileCmd, stageFlag, spvPath, hv1, hv2, hv3, hf1, hf2, hf3, hf4,
      hc1, hc2, hg1, hg2, hg3, hg4, hg5, hl1, hl2, hl3, hl4, hl5,
      ht2, ht3, ht4, ht5, ht6, hs2, hs3, hs4, hs5, hs6]

/-- Witness for C9 (amended): a concrete `.vert` shader is compiled with
the vertex stage flag and suffixed output path. -/
theorem shader_invocation_shape_witness :
    shaderCompileCmd "glslc" "a.vert" =
      ["glslc", "-fshader-stage=vertex", "a.vert", "-o", "a.vert" ++ ".spv"] :=
  (shader_invocation_shape "glslc" "a.vert" "a.frag" "a.comp" "a.geom"
    "a.glsl" "a.tesc" "a.tese" (by decide) (by decide) (by decide) (by decide)
    (by decide) (by decide) (by decide) (by decide) (by decide) (by decide)
    (by decide) (by decide) (by decide) (by decide) (by decide) (by decide)
    (by decide) (by decide) (by decide) (by decide) (by decide) (by decide)
    (by decide) (by decide) (by decide) (by decide) (by decide) (by decide)
    (by decide) (by decide) (by decide)).1

/-! Bounded terminal buffer (claim C10). -/

/-- The cap `TERMINAL_MAX_LINES = 500` (main.py line 111). -/
def TERMINAL_MAX_LINES : Nat := 500

/-- The method `Editor._add_terminal_line` (main.py lines 368-376): append the line,
then drop the front line if the buffer exceeds the cap. -/
def addTerminalLine (terminalLines : List String) (line : String) : List String :=
  if (terminalLines ++ [line]).length > TERMINAL_MAX_LINES then
    (terminalLines ++ [line]).tail
  else terminalLines ++ [line]

/-- C10: `_add_terminal_line` preserves the buffer bound, always keeps
the new line at the end, and drops exactly the oldest line when the
buffer was full. -/
theorem terminal_buffer_bounded (lines : List String) (l : String)
    (h : lines.length ≤ TERMINAL_MAX_LINES) :
    (addTerminalLine lines l).length ≤ TERMINAL_MAX_LINES ∧
    (addTerminalLine lines l).getLast? = some l ∧
    (lines.length = TERMINAL_MAX_LINES → addTerminalLine lines l = lines.tail ++ [l]) := by
  unfold addTerminalLine
  by_cases hc : (lines ++ [l]).length > TERMINAL_MAX_LINES
  · rw [if_pos hc]
    simp only [List.length_append, List.length_singleton] at hc
    have hne : lines ≠ [] := by
      intro hnil
      subst hnil
      simp [TERMINAL_MAX_LINES] at hc
    obtain ⟨x, xs, rfl⟩ := List.exists_cons_of_ne_nil hne
    have htail : (x :: xs ++ [l]).tail = xs ++ [l] := rfl
    refine ⟨?_, ?_, fun _ => rfl⟩
    · rw [htail]
      simp only [List.length_cons] at h
      simp only [List.length_append, List.length_singleton]
      omega
    · rw [htail]
      simp
  · rw [if_neg hc]
    simp only [List.length_append, List.length_singleton] at hc
    refine ⟨by simp only [List.length_append, List.length_singleton]; omega, by simp, ?_⟩
    intro hfull
    omega

/-- Witness for C10: appending to a one-line buffer keeps the bound and
the new final line. -/
theorem terminal_buffer_bounded_witness :
    (addTerminalLine ["boot"] "x").length ≤ TERMINAL_MAX_LINES ∧
    (addTerminalLine ["boot"] "x").getLast? = some "x" :=
  ⟨(terminal_buffer_bounded ["boot"] "x" (by decide)).1,
   (terminal_buffer_bounded ["boot"] "x" (by decide)).2.1⟩

end Heidic
